import Mathlib

/-!
# logctx: the context-aware zap core

A shallow embedding of `ctxawarezapcore.go`; `logctx.go` and `error.go` follow in the
section on loggers, contexts and errors.

* A `context.Context` interface value is an `Option Γ`: `none` is the nil
  interface, `some c` a non-nil context `c` (`Γ` is the type of non-nil contexts).
* A slice is a `List`; the capacity of a slice is not observable through its
  elements and is kept only as an argument of `makeSlice`.
* The wrapped `zapcore.Core` and the `OnLogWrite` callback are external
  collaborators. They may have effects, so each of them reads and returns a
  world of type `ω`; every method of the decorator additionally returns the
  list of collaborator calls it made, in order (`Event`).
* Collaborators are assumed to return (a panic inside one is not modelled) and
  the wrapped core of a `CtxAwareZapCore` is assumed non-nil.
-/

namespace Logctx

/-! ## zapcore data -/

/-- The field kinds of `zapcore.FieldType`. -/
inductive FieldType
  | UnknownType | ArrayMarshalerType | ObjectMarshalerType | BinaryType | BoolType
  | ByteStringType | Complex128Type | Complex64Type | DurationType | Float64Type
  | Float32Type | Int64Type | Int32Type | Int16Type | Int8Type | StringType | TimeType
  | TimeFullType | Uint64Type | Uint32Type | Uint16Type | Uint8Type | UintptrType
  | ReflectType | NamespaceType | StringerType | ErrorType | SkipType
  | InlineMarshalerType
deriving DecidableEq, Repr

/-- The dynamic value of a Go `interface{}` as far as `ctxFromSelfOrFields` can tell
values apart: the nil interface, a value whose dynamic type implements
`context.Context`, or a value of any other type (named by a tag). -/
inductive Iface (Γ : Type)
  | nil
  | ctx (c : Γ)
  | other (tag : String)
deriving DecidableEq, Repr

/-- The struct `zapcore.Field`. -/
structure Field (Γ : Type) where
  Key : String
  Typ : FieldType
  Integer : Int
  Str : String
  Interface : Iface Γ
deriving DecidableEq, Repr

/-- The zero value `zapcore.Field{}`. -/
def Field.zero {Γ : Type} : Field Γ :=
  { Key := "", Typ := FieldType.UnknownType, Integer := 0, Str := "", Interface := Iface.nil }

/-- The struct `zapcore.Entry`; `Level` is an int8, `Time` a timestamp. -/
structure Entry where
  Level : Int
  Time : Int
  LoggerName : String
  Message : String
  Caller : String
  Stack : String
deriving DecidableEq, Repr

/-- A Go `error` value: `none` is nil. -/
abbrev GoError := Option String

/-! ## Go builtins on slices -/

/-- Go `make([]T, len, cap)`: a slice of `len` zero values. -/
def makeSlice {α : Type} (zero : α) (len _cap : Nat) : List α :=
  List.replicate len zero

/-- Go `copy(dst, src)`: the number of elements copied, `min(len(dst), len(src))`. -/
def copyCount {α : Type} (dst src : List α) : Nat :=
  min dst.length src.length

/-- Go `copy(dst, src)`: the contents of `dst` after the call; its first
`copyCount dst src` elements are overwritten, its length is unchanged. -/
def copySlice {α : Type} (dst src : List α) : List α :=
  src.take (copyCount dst src) ++ dst.drop (copyCount dst src)

/-! ## ctxawarezapcore.go -/

/-- The constant `fieldName`. -/
def fieldName : String := "context"

/-- The function `CtxField`: wraps a context as a field. A nil context stored in
`Interface` is the nil interface. -/
def CtxField {Γ : Type} (ctx : Option Γ) : Field Γ :=
  { Key := fieldName, Typ := FieldType.ReflectType, Integer := 0, Str := "",
    Interface := match ctx with
      | none => Iface.nil
      | some c => Iface.ctx c }

/-- The type assertion `v.(context.Context)` in its two-result form: `some c` when
it succeeds (the result is then a non-nil context), `none` when `ok` is false. -/
def asContext {Γ : Type} : Iface Γ → Option Γ
  | Iface.ctx c => some c
  | _ => none

/-- The function type `OnLogWrite`. -/
abbrev OnLogWrite (Γ ω : Type) : Type :=
  Option Γ → Entry → List (Field Γ) → ω → List (Field Γ) × ω

/-- The struct `CtxAwareZapCore`: the embedded `zapcore.Core` (a handle of type `σ`),
`latestCtx`, and the callback, which may be nil. -/
structure CtxAwareZapCore (σ Γ ω : Type) where
  Core : σ
  latestCtx : Option Γ
  OnLogWrite : Option (OnLogWrite Γ ω)

/-- One iteration of the loop of `ctxFromSelfOrFields`, on the pair
`(ctx, storedFields)`. -/
def ctxStep {Γ : Type} (acc : Option Γ × List (Field Γ)) (f : Field Γ) :
    Option Γ × List (Field Γ) :=
  if f.Key = fieldName ∧ f.Typ = FieldType.ReflectType then
    match asContext f.Interface with
    | some maybeCtx => (some maybeCtx, acc.2)
    | none => (acc.1, acc.2 ++ [f])
  else
    (acc.1, acc.2 ++ [f])

/-- The method `ctxFromSelfOrFields`. -/
def CtxAwareZapCore.ctxFromSelfOrFields {σ Γ ω : Type} (s : CtxAwareZapCore σ Γ ω)
    (fields : List (Field Γ)) : Option Γ × List (Field Γ) :=
  fields.foldl ctxStep (s.latestCtx, makeSlice Field.zero 0 fields.length)

/-- The interface `zapcore.Core` as implemented by the wrapped core: the methods the
decorator calls, each on a core handle and the current world. -/
structure CoreImpl (σ Γ ω : Type) (CE : Type) where
  Enabled : σ → Int → ω → Bool × ω
  With : σ → List (Field Γ) → ω → σ × ω
  Check : σ → Entry → Option CE → ω → Option CE × ω
  Write : σ → Entry → List (Field Γ) → ω → GoError × ω

/-- A `zapcore.Core` interface value held in a checked entry: the decorator or some
other core. -/
inductive CoreRef (σ Γ ω : Type)
  | wrapped (c : σ)
  | ctxAware (s : CtxAwareZapCore σ Γ ω)

/-- The struct `zapcore.CheckedEntry`: the entry and the cores registered to write it. -/
structure CheckedEntry (σ Γ ω : Type) where
  Entry : Entry
  cores : List (CoreRef σ Γ ω)

/-- The method `(*zapcore.CheckedEntry).AddCore`; a nil receiver is replaced by a
fresh checked entry for `ent`. -/
def AddCore {σ Γ ω : Type} (ce : Option (CheckedEntry σ Γ ω)) (ent : Entry)
    (core : CoreRef σ Γ ω) : CheckedEntry σ Γ ω :=
  match ce with
  | none => { Entry := ent, cores := [core] }
  | some c => { c with cores := c.cores ++ [core] }

/-- The wrapped core of a decorator over handles `σ`. -/
abbrev Wrapped (σ Γ ω : Type) : Type := CoreImpl σ Γ ω (CheckedEntry σ Γ ω)

/-- A call made to a collaborator. `coreCheck` is always made with a nil chain. -/
inductive Event (σ Γ : Type)
  | enabled (core : σ) (lvl : Int)
  | coreWith (core : σ) (fields : List (Field Γ))
  | coreCheck (core : σ) (ent : Entry)
  | coreWrite (core : σ) (ent : Entry) (fields : List (Field Γ))
  | callback (ctx : Option Γ) (ent : Entry) (fields : List (Field Γ))
deriving DecidableEq, Repr

/-- What a method call yields: its return value, the world after it, and the
collaborator calls it made, in order. -/
structure Outcome (α σ Γ ω : Type) where
  value : α
  world : ω
  calls : List (Event σ Γ)

/-- The method `Enabled`, promoted from the embedded core. -/
def CtxAwareZapCore.Enabled {σ Γ ω : Type} (impl : Wrapped σ Γ ω)
    (s : CtxAwareZapCore σ Γ ω) (lvl : Int) (w : ω) : Outcome Bool σ Γ ω :=
  let r := impl.Enabled s.Core lvl w
  { value := r.1, world := r.2, calls := [Event.enabled s.Core lvl] }

/-- The method `With`. -/
def CtxAwareZapCore.With {σ Γ ω : Type} (impl : Wrapped σ Γ ω)
    (s : CtxAwareZapCore σ Γ ω) (fields : List (Field Γ)) (w : ω) :
    Outcome (CtxAwareZapCore σ Γ ω) σ Γ ω :=
  let d := s.ctxFromSelfOrFields fields
  let ctx := d.1
  let storedFields := d.2
  let r := impl.With s.Core storedFields w
  { value := { Core := r.1, OnLogWrite := s.OnLogWrite, latestCtx := ctx },
    world := r.2,
    calls := [Event.coreWith s.Core storedFields] }

/-- The method `Check`. -/
def CtxAwareZapCore.Check {σ Γ ω : Type} (impl : Wrapped σ Γ ω)
    (s : CtxAwareZapCore σ Γ ω) (ent : Entry) (ce : Option (CheckedEntry σ Γ ω)) (w : ω) :
    Outcome (Option (CheckedEntry σ Γ ω)) σ Γ ω :=
  let en := s.Enabled impl ent.Level w
  if en.value = false then
    { value := ce, world := en.world, calls := en.calls }
  else
    let res := impl.Check s.Core ent none en.world
    match res.1 with
    | none =>
      { value := ce, world := res.2, calls := en.calls ++ [Event.coreCheck s.Core ent] }
    | some _ =>
      { value := some (AddCore ce ent (CoreRef.ctxAware s)), world := res.2,
        calls := en.calls ++ [Event.coreCheck s.Core ent] }

/-- The constant `extraCapacity`. -/
def extraCapacity : Nat := 10

/-- The method `Write`. -/
def CtxAwareZapCore.Write {σ Γ ω : Type} (impl : Wrapped σ Γ ω)
    (s : CtxAwareZapCore σ Γ ω) (ent : Entry) (fields : List (Field Γ)) (w : ω) :
    Outcome GoError σ Γ ω :=
  match s.OnLogWrite with
  | none =>
    let r := impl.Write s.Core ent fields w
    { value := r.1, world := r.2, calls := [Event.coreWrite s.Core ent fields] }
  | some onLogWrite =>
    let d := s.ctxFromSelfOrFields fields
    let ctx := d.1
    let fields := d.2
    match ctx with
    | none =>
      let r := impl.Write s.Core ent fields w
      { value := r.1, world := r.2, calls := [Event.coreWrite s.Core ent fields] }
    | some _ =>
      let extendedFields := makeSlice Field.zero 0 (fields.length + extraCapacity)
      let extendedFields := copySlice extendedFields fields
      let cb := onLogWrite s.latestCtx ent extendedFields w
      let r := impl.Write s.Core ent cb.1 cb.2
      { value := r.1, world := r.2,
        calls := [Event.callback s.latestCtx ent extendedFields,
                  Event.coreWrite s.Core ent cb.1] }

/-! ## Vocabulary of the specification -/

/-- A field is a decodable carrier: key "context", type `ReflectType`, and a payload
that is a `context.Context`. -/
def isCarrier {Γ : Type} (f : Field Γ) : Bool :=
  f.Key == "context" && f.Typ == FieldType.ReflectType && (asContext f.Interface).isSome

/-- The original non-carrier fields of a field list, in their original order. -/
def nonCarriers {Γ : Type} (fields : List (Field Γ)) : List (Field Γ) :=
  fields.filter (fun f => !isCarrier f)

/-- The payload of the last decodable carrier of a field list, if there is one. -/
def lastCarried {Γ : Type} (fields : List (Field Γ)) : Option Γ :=
  (fields.reverse.find? isCarrier).bind (fun f => asContext f.Interface)

/-- The fields passed to the wrapped core's `With` among some calls. -/
def withArgs {σ Γ : Type} : List (Event σ Γ) → List (List (Field Γ))
  | [] => []
  | Event.coreWith _ fs :: es => fs :: withArgs es
  | _ :: es => withArgs es

/-- The fields passed to the wrapped core's `Write` among some calls. -/
def writeArgs {σ Γ : Type} : List (Event σ Γ) → List (List (Field Γ))
  | [] => []
  | Event.coreWrite _ _ fs :: es => fs :: writeArgs es
  | _ :: es => writeArgs es

/-- The arguments of the `OnLogWrite` invocations among some calls. -/
def callbackArgs {σ Γ : Type} : List (Event σ Γ) → List (Option Γ × Entry × List (Field Γ))
  | [] => []
  | Event.callback c e fs :: es => (c, e, fs) :: callbackArgs es
  | _ :: es => callbackArgs es

/-- Whether a call is a call of the wrapped core's `Check`. -/
def Event.isCoreCheck {σ Γ : Type} : Event σ Γ → Bool
  | Event.coreCheck _ _ => true
  | _ => false

/-- Whether a call is an invocation of the `OnLogWrite` callback. -/
def Event.isCallback {σ Γ : Type} : Event σ Γ → Bool
  | Event.callback _ _ _ => true
  | _ => false

/-- Whether a call is a call of the wrapped core's `Write`. -/
def Event.isCoreWrite {σ Γ : Type} : Event σ Γ → Bool
  | Event.coreWrite _ _ _ => true
  | _ => false

/-- A chain of derivations `s.With(fs_1)...With(fs_n)`, threading the world. -/
def withChain {σ Γ ω : Type} (impl : Wrapped σ Γ ω) :
    CtxAwareZapCore σ Γ ω → List (List (Field Γ)) → ω → CtxAwareZapCore σ Γ ω × ω
  | s, [], w => (s, w)
  | s, fs :: rest, w =>
    withChain impl (s.With impl fs w).value rest (s.With impl fs w).world

/-! ## Concrete collaborators used to evaluate the model -/

/-- A wrapped core over unit handles and a unit world: enabled from level 0 up,
interested in every entry, never failing. -/
def demoCore : Wrapped Unit Nat Unit :=
  { Enabled := fun _ lvl w => (decide (0 ≤ lvl), w),
    With := fun c _ w => (c, w),
    Check := fun c ent ce w => (some (AddCore ce ent (CoreRef.wrapped c)), w),
    Write := fun _ _ _ w => (none, w) }

/-- A wrapped core like `demoCore` whose `Check` reports no interest. -/
def deafCore : Wrapped Unit Nat Unit :=
  { demoCore with Check := fun _ _ _ w => (none, w) }

/-- A callback that returns the fields it was given. -/
def keepFields : OnLogWrite Nat Unit := fun _ _ fields w => (fields, w)

/-- An entry at the given level. -/
def demoEntry (lvl : Int) : Entry :=
  { Level := lvl, Time := 0, LoggerName := "", Message := "m", Caller := "", Stack := "" }

/-- An ordinary string field, as `zap.String(k, v)` builds it. -/
def strField (k v : String) : Field Nat :=
  { Key := k, Typ := FieldType.StringType, Integer := 0, Str := v, Interface := Iface.nil }

/-! ## zap loggers, contexts and errors

The embedding of `logctx.go` and `error.go`.

* A `*zap.Logger` is taken non-nil and is known by the logger it descends from and by
  its cumulative fields: the fields given to `With` since then, in order.
* A call that panics yields `Except.error`; a call that returns yields `Except.ok`.
* Error values are compared structurally (pointer identity is not modelled).
* `Sugar` and the sugared `With` are not embedded.
-/

/-- A non-nil `*zap.Logger`: the logger it descends from and its cumulative fields. -/
structure Logger (Γ : Type) where
  root : String
  fields : List (Field Γ)

/-- The method `(*zap.Logger).With`: a new logger with the fields added. -/
def Logger.With {Γ : Type} (l : Logger Γ) (fields : List (Field Γ)) : Logger Γ :=
  { l with fields := l.fields ++ fields }

/-- A non-nil `context.Context`: a context holding no logger (`context.TODO()`,
`context.Background()`, ...), the result of `context.WithValue(parent, key, l)` for the
package key, or any other context derived from a parent, whose `Value` defers to it. -/
inductive Context
  | background (id : Nat)
  | withValue (parent : Context) (l : Logger Context)
  | derived (parent : Context) (tag : Nat)

/-- The expression `ctx.Value(key).(*zap.Logger)` on a non-nil `ctx`, in its two-result
form: `none` when `ok` is false. -/
def Context.Value : Context → Option (Logger Context)
  | Context.background _ => none
  | Context.withValue _ l => some l
  | Context.derived parent _ => parent.Value

/-- The package variables `DefaultLogger` and `AddCtxFields`. -/
structure Config where
  DefaultLogger : Logger Context
  AddCtxFields : Bool

/-- The outcome of a call that may panic. -/
abbrev Run (α : Type) : Type := Except String α

/-- The panic raised by a method call on a nil interface value. -/
def nilDeref : String := "invalid memory address or nil pointer dereference"

/-- The panic raised by `context.WithValue` on a nil parent. -/
def nilParent : String := "cannot create context from nil parent"

/-- The function `newCtx`. -/
def newCtx (ctx : Option Context) (l : Logger Context) : Run Context :=
  match ctx with
  | none => Except.error nilParent
  | some c => Except.ok (Context.withValue c l)

/-- The function `From`. On a nil `ctx` the call `ctx.Value(key)` panics. -/
def From (cfg : Config) (ctx : Option Context) : Run (Logger Context) :=
  match ctx with
  | none => Except.error nilDeref
  | some c =>
    match c.Value with
    | none => Except.ok cfg.DefaultLogger
    | some l =>
      if cfg.AddCtxFields then Except.ok (l.With [CtxField ctx]) else Except.ok l

/-- A call of a logging method of a logger: `logger.Debug(msg, fields...)` and the like. -/
structure LogCall where
  logger : Logger Context
  level : Int
  msg : String
  fields : List (Field Context)

/-- The constant `zapcore.DebugLevel`. -/
def DebugLevel : Int := -1

/-- The function `Debug`: the log calls it makes, in order, and how it ends. -/
def Debug (cfg : Config) (ctx : Option Context) (msg : String)
    (fields : List (Field Context)) : List LogCall × Run Unit :=
  let first : List LogCall :=
    match ctx with
    | none => [{ logger := cfg.DefaultLogger, level := DebugLevel, msg := msg, fields := fields }]
    | some _ => []
  match From cfg ctx with
  | Except.error p => (first, Except.error p)
  | Except.ok l =>
    (first ++ [{ logger := l, level := DebugLevel, msg := msg, fields := fields }],
      Except.ok ())

/-- The function `WithFields`. -/
def WithFields (cfg : Config) (ctx : Option Context) (fields : List (Field Context)) :
    Run Context :=
  match From cfg ctx with
  | Except.error p => Except.error p
  | Except.ok l => newCtx ctx (l.With fields)

/-- A non-nil `error`: the result of `errors.New(msg)`, the result of `fmt.Errorf` with one
`%w` operand (`text` is its formatted message), or an `*enhancedError`. -/
inductive GoErr
  | new (msg : String)
  | errorf (text : String) (err : GoErr)
  | enhanced (wrapped : GoErr) (logger : Logger Context)

/-- The method `Error` of an error; on an `*enhancedError` it is `e.wrapped.Error()`. -/
def GoErr.Error : GoErr → String
  | GoErr.new msg => msg
  | GoErr.errorf text _ => text
  | GoErr.enhanced wrapped _ => wrapped.Error

/-- The method `Unwrap` of an error, `none` when the error wraps nothing; on an
`*enhancedError` it is `e.wrapped`. -/
def GoErr.Unwrap : GoErr → Option GoErr
  | GoErr.new _ => none
  | GoErr.errorf _ err => some err
  | GoErr.enhanced wrapped _ => some wrapped

/-- The unwrap chain of an error, outermost first: what `errors.Is` and `errors.As` walk. -/
def GoErr.chain : GoErr → List GoErr
  | GoErr.new msg => [GoErr.new msg]
  | GoErr.errorf text err => GoErr.errorf text err :: err.chain
  | GoErr.enhanced wrapped logger => GoErr.enhanced wrapped logger :: wrapped.chain

/-- The call `fmt.Errorf` with message `text` and one `%w` operand; a nil operand gives an
error that wraps nothing. -/
def Errorf (text : String) (err : Option GoErr) : GoErr :=
  match err with
  | none => GoErr.new text
  | some e => GoErr.errorf text e

/-- The call `errors.As(err, &elog)` for `elog` of type `*enhancedError`: the logger of the
first enhanced error of the unwrap chain, `none` when the call returns false. -/
def asEnhanced : Option GoErr → Option (Logger Context)
  | none => none
  | some (GoErr.new _) => none
  | some (GoErr.errorf _ err) => asEnhanced (some err)
  | some (GoErr.enhanced _ logger) => some logger

/-- The function `NewError`. -/
def NewError (cfg : Config) (ctx : Option Context) (msg : String)
    (fields : List (Field Context)) : Run GoErr :=
  match From cfg ctx with
  | Except.error p => Except.error p
  | Except.ok l => Except.ok (GoErr.enhanced (GoErr.new msg) (l.With fields))

/-- The function `EnhanceError`; the result `none` is the nil error. -/
def EnhanceError (cfg : Config) (ctx : Option Context) (err : Option GoErr)
    (fields : List (Field Context)) : Run (Option GoErr) :=
  match err with
  | none => Except.ok none
  | some e =>
    match From cfg ctx with
    | Except.error p => Except.error p
    | Except.ok l => Except.ok (some (GoErr.enhanced e (l.With fields)))

/-- The function `zap.Error`: the field `error` holding the error, `zap.Skip()` for nil. -/
def zapError (err : Option GoErr) : Field Context :=
  match err with
  | none => { Key := "", Typ := FieldType.SkipType, Integer := 0, Str := "",
              Interface := Iface.nil }
  | some e => { Key := "error", Typ := FieldType.ErrorType, Integer := 0, Str := "",
                Interface := Iface.other e.Error }

/-- The function `ForError`. The logger made by `l.With(zap.Error(err))` is dropped and
`l` is returned. -/
def ForError (cfg : Config) (ctx : Option Context) (err : Option GoErr) :
    Run (Logger Context) :=
  let picked : Run (Logger Context) :=
    match asEnhanced err with
    | some logger =>
      if cfg.AddCtxFields then Except.ok (logger.With [CtxField ctx]) else Except.ok logger
    | none => From cfg ctx
  match picked with
  | Except.error p => Except.error p
  | Except.ok l =>
    let _dropped := l.With [zapError err]
    Except.ok l

/-- Ordinary wrappers around an error: `fmt.Errorf` with `%w` applied once per message,
the first message outermost. -/
def wrapAll (texts : List String) (err : GoErr) : GoErr :=
  texts.foldr GoErr.errorf err

/-- The cumulative fields of the logger a call yields. -/
def fieldsOf (r : Run (Logger Context)) : Run (List (Field Context)) :=
  match r with
  | Except.error p => Except.error p
  | Except.ok l => Except.ok l.fields

/-- The package variables at start-up: `zap.NewNop()` and false. -/
def demoConfig : Config :=
  { DefaultLogger := { root := "nop", fields := [] }, AddCtxFields := false }

/-- An ordinary string field on contexts, as `zap.String(k, v)` builds it. -/
def ctxStrField (k v : String) : Field Context :=
  { Key := k, Typ := FieldType.StringType, Integer := 0, Str := v, Interface := Iface.nil }

/-! ## Lemmas on the field bridge -/

theorem isCarrier_CtxField_some {Γ : Type} (c : Γ) : isCarrier (CtxField (some c)) = true := by
  simp [isCarrier, CtxField, fieldName, asContext]

theorem isCarrier_CtxField_none {Γ : Type} : isCarrier (CtxField (none : Option Γ)) = false := by
  simp [isCarrier, CtxField, asContext]

theorem asContext_CtxField {Γ : Type} (c : Option Γ) : asContext (CtxField c).Interface = c := by
  cases c <;> simp [CtxField, asContext]

theorem ctxStep_carrier {Γ : Type} (acc : Option Γ × List (Field Γ)) (f : Field Γ)
    (h : isCarrier f = true) : ctxStep acc f = (asContext f.Interface, acc.2) := by
  simp only [isCarrier, Bool.and_eq_true, beq_iff_eq] at h
  obtain ⟨⟨hk, ht⟩, hc⟩ := h
  obtain ⟨c, hc⟩ := Option.isSome_iff_exists.mp hc
  simp [ctxStep, fieldName, hk, ht, hc]

theorem ctxStep_other {Γ : Type} (acc : Option Γ × List (Field Γ)) (f : Field Γ)
    (h : isCarrier f = false) : ctxStep acc f = (acc.1, acc.2 ++ [f]) := by
  unfold ctxStep
  split
  · rename_i hkt
    cases hc : asContext f.Interface with
    | none => rfl
    | some c =>
      exfalso
      have : isCarrier f = true := by
        simp [isCarrier, hc]
        exact ⟨hkt.1, hkt.2⟩
      simp [this] at h
  · rfl

theorem foldl_ctxStep_snd {Γ : Type} (fields : List (Field Γ))
    (acc : Option Γ × List (Field Γ)) :
    (fields.foldl ctxStep acc).2 = acc.2 ++ nonCarriers fields := by
  induction fields generalizing acc with
  | nil => simp [nonCarriers]
  | cons f rest ih =>
    rw [List.foldl_cons, ih]
    cases h : isCarrier f
    · rw [ctxStep_other acc f h]
      simp [nonCarriers, List.filter_cons, h]
    · rw [ctxStep_carrier acc f h]
      simp [nonCarriers, List.filter_cons, h]

theorem lastCarried_append_singleton {Γ : Type} (fields : List (Field Γ)) (f : Field Γ) :
    lastCarried (fields ++ [f]) =
      if isCarrier f then asContext f.Interface else lastCarried fields := by
  cases h : isCarrier f <;> simp [lastCarried, List.find?_cons, h]

theorem foldl_ctxStep_fst {Γ : Type} (fields : List (Field Γ))
    (acc : Option Γ × List (Field Γ)) :
    (fields.foldl ctxStep acc).1 =
      match lastCarried fields with
      | some c => some c
      | none => acc.1 := by
  induction fields using List.reverseRecOn with
  | nil => simp [lastCarried]
  | append_singleton rest f ih =>
    rw [List.foldl_append, List.foldl_cons, List.foldl_nil, lastCarried_append_singleton]
    cases h : isCarrier f
    · rw [ctxStep_other _ f h]
      simpa using ih
    · rw [ctxStep_carrier _ f h]
      have hs : (asContext f.Interface).isSome = true := by
        simp only [isCarrier, Bool.and_eq_true] at h
        exact h.2
      obtain ⟨c, hc⟩ := Option.isSome_iff_exists.mp hs
      simp [hc]

theorem ctxFromSelfOrFields_eq {σ Γ ω : Type} (s : CtxAwareZapCore σ Γ ω)
    (fields : List (Field Γ)) :
    s.ctxFromSelfOrFields fields =
      ((match lastCarried fields with
        | some c => some c
        | none => s.latestCtx), nonCarriers fields) := by
  apply Prod.ext
  · exact foldl_ctxStep_fst fields _
  · simp [CtxAwareZapCore.ctxFromSelfOrFields, foldl_ctxStep_snd, makeSlice]

theorem nonCarriers_eq_self {Γ : Type} (fields : List (Field Γ))
    (h : ∀ f ∈ fields, isCarrier f = false) : nonCarriers fields = fields := by
  simp only [nonCarriers, List.filter_eq_self]
  intro f hf
  simp [h f hf]

theorem lastCarried_eq_none {Γ : Type} (fields : List (Field Γ))
    (h : ∀ f ∈ fields, isCarrier f = false) : lastCarried fields = none := by
  have : fields.reverse.find? isCarrier = none := by
    simp only [List.find?_eq_none, List.mem_reverse]
    intro f hf
    simp [h f hf]
  simp [lastCarried, this]

theorem lastCarried_isSome {Γ : Type} (fields : List (Field Γ))
    (h : ∃ f ∈ fields, isCarrier f = true) : (lastCarried fields).isSome = true := by
  obtain ⟨f, hf, hc⟩ := h
  cases hfind : fields.reverse.find? isCarrier with
  | none =>
    rw [List.find?_eq_none] at hfind
    exact absurd hc (hfind f (List.mem_reverse.mpr hf))
  | some g =>
    have hg : isCarrier g = true := List.find?_some hfind
    simp only [isCarrier, Bool.and_eq_true] at hg
    simp [lastCarried, hfind, hg.2]

theorem mem_nonCarriers {Γ : Type} (fields : List (Field Γ)) (f : Field Γ) :
    f ∈ nonCarriers fields ↔ f ∈ fields ∧ isCarrier f = false := by
  simp [nonCarriers, List.mem_filter]

/-! ## The field bridge round trip -/

/-- C1 as stated fails at two inputs. With `F = [CtxField 7]`, `C = 3` and `i = 0` the
decoded context is 7 and no field remains, not `(3, F)`. With `F` empty and `C` the nil
context on a receiver storing context 4, the field `CtxField(nil)` stays in the output
and the stored context 4 is returned. -/
theorem ctxFromSelfOrFields_roundtrip_fails :
    ((({ Core := (), latestCtx := none, OnLogWrite := none } :
          CtxAwareZapCore Unit Nat Unit).ctxFromSelfOrFields
        (([CtxField (some 7)] : List (Field Nat)).take 0
          ++ CtxField (some 3) :: ([CtxField (some 7)] : List (Field Nat)).drop 0)
        = (some 7, []))
      ∧ ((some 7, []) ≠ ((some 3, [CtxField (some 7)]) : Option Nat × List (Field Nat))))
    ∧ ((({ Core := (), latestCtx := some 4, OnLogWrite := none } :
          CtxAwareZapCore Unit Nat Unit).ctxFromSelfOrFields
        (([] : List (Field Nat)).take 0 ++ CtxField none :: ([] : List (Field Nat)).drop 0)
        = (some 4, [CtxField none]))
      ∧ ((some 4, [CtxField none]) ≠ ((none, []) : Option Nat × List (Field Nat)))) := by
  refine ⟨⟨?_, ?_⟩, ⟨?_, ?_⟩⟩ <;> decide

/-- C1 (amended): for every field sequence `F` holding no decodable carrier, every
non-nil context `c`, every position `i ≤ len(F)` and every receiver,
`ctxFromSelfOrFields` over `F` with `CtxField(c)` inserted at position `i` returns
`F` itself as the remaining fields and `c` as the resolved context. -/
theorem ctxFromSelfOrFields_roundtrip {σ Γ ω : Type} (s : CtxAwareZapCore σ Γ ω)
    (F : List (Field Γ)) (c : Γ) (i : Nat) (_hi : i ≤ F.length)
    (hF : ∀ f ∈ F, isCarrier f = false) :
    s.ctxFromSelfOrFields (F.take i ++ CtxField (some c) :: F.drop i) = (some c, F) := by
  have htake : ∀ f ∈ F.take i, isCarrier f = false :=
    fun f hf => hF f (List.mem_of_mem_take hf)
  have hdrop : ∀ f ∈ F.drop i, isCarrier f = false :=
    fun f hf => hF f (List.mem_of_mem_drop hf)
  unfold CtxAwareZapCore.ctxFromSelfOrFields
  rw [List.foldl_append, List.foldl_cons]
  apply Prod.ext
  · rw [foldl_ctxStep_fst, lastCarried_eq_none _ hdrop,
      ctxStep_carrier _ _ (isCarrier_CtxField_some c)]
    exact asContext_CtxField (some c)
  · rw [foldl_ctxStep_snd, nonCarriers_eq_self _ hdrop,
      ctxStep_carrier _ _ (isCarrier_CtxField_some c), foldl_ctxStep_snd,
      nonCarriers_eq_self _ htake]
    simp [makeSlice]

/-- Witness of C1 (amended): the context 3 inserted at position 1 of a two-field list. -/
theorem ctxFromSelfOrFields_roundtrip_witness :
    ({ Core := (), latestCtx := some 9, OnLogWrite := none } :
        CtxAwareZapCore Unit Nat Unit).ctxFromSelfOrFields
      ([strField "a" "x", strField "context" "y"].take 1
        ++ CtxField (some 3) :: [strField "a" "x", strField "context" "y"].drop 1)
      = (some 3, [strField "a" "x", strField "context" "y"]) :=
  ctxFromSelfOrFields_roundtrip _ [strField "a" "x", strField "context" "y"] 3 1
    (by decide) (by decide)

/-! ## Write: what the callback receives -/

/-- C2 (failing input): a core storing context 1 with the callback `keepFields` writes
an entry with the single field `user=u`. The callback is handed the empty slice, which
does not contain the original field, and the wrapped core is written the empty slice. -/
theorem Write_callback_gets_empty_fields :
    (({ Core := (), latestCtx := some 1, OnLogWrite := some keepFields } :
          CtxAwareZapCore Unit Nat Unit).Write demoCore (demoEntry 0)
        [strField "user" "u"] ()).calls
      = [Event.callback (some 1) (demoEntry 0) [],
         Event.coreWrite () (demoEntry 0) []]
    ∧ ¬ (nonCarriers [strField "user" "u"]).Sublist ([] : List (Field Nat)) := by
  refine ⟨?_, ?_⟩ <;> decide

/-- C3 (failing input): a core storing no context with the callback `keepFields` writes
an entry whose fields are `[CtxField(5)]`. The context 5 is decoded from the fields, yet
the callback receives the stored context, which is nil. -/
theorem Write_callback_gets_stored_ctx :
    lastCarried ([CtxField (some 5)] : List (Field Nat)) = some 5
    ∧ callbackArgs
        (({ Core := (), latestCtx := none, OnLogWrite := some keepFields } :
            CtxAwareZapCore Unit Nat Unit).Write demoCore (demoEntry 0)
          [CtxField (some 5)] ()).calls
      = [(none, demoEntry 0, [])] := by
  refine ⟨?_, ?_⟩ <;> decide

/-! ## Check -/

/-- C4: when the level gate `s.Enabled(ent.Level)` is false, `s.Check(ent, ce)` returns
`ce` unchanged and its only collaborator call is the gate itself: neither the wrapped
core's `Check` nor the callback is invoked. Any other wrapped core with the same
`Enabled` and any other decorator over the same core handle (whatever its callback)
gives the same result, world and calls. -/
theorem Check_level_disabled {σ Γ ω : Type} (impl : Wrapped σ Γ ω)
    (s : CtxAwareZapCore σ Γ ω) (ent : Entry) (ce : Option (CheckedEntry σ Γ ω)) (w : ω)
    (h : (s.Enabled impl ent.Level w).value = false) :
    (s.Check impl ent ce w).value = ce
    ∧ (s.Check impl ent ce w).calls = [Event.enabled s.Core ent.Level]
    ∧ (s.Check impl ent ce w).world = (impl.Enabled s.Core ent.Level w).2
    ∧ (∀ e ∈ (s.Check impl ent ce w).calls, e.isCoreCheck = false ∧ e.isCallback = false)
    ∧ (∀ (impl2 : Wrapped σ Γ ω) (s2 : CtxAwareZapCore σ Γ ω),
        impl2.Enabled = impl.Enabled → s2.Core = s.Core →
          (s2.Check impl2 ent ce w).value = (s.Check impl ent ce w).value
          ∧ (s2.Check impl2 ent ce w).calls = (s.Check impl ent ce w).calls
          ∧ (s2.Check impl2 ent ce w).world = (s.Check impl ent ce w).world) := by
  have key : ∀ (impl2 : Wrapped σ Γ ω) (s2 : CtxAwareZapCore σ Γ ω),
      impl2.Enabled = impl.Enabled → s2.Core = s.Core →
        s2.Check impl2 ent ce w =
          { value := ce, world := (impl.Enabled s.Core ent.Level w).2,
            calls := [Event.enabled s.Core ent.Level] } := by
    intro impl2 s2 hE hC
    have h2 : (s2.Enabled impl2 ent.Level w).value = false := by
      simpa [CtxAwareZapCore.Enabled, hE, hC] using h
    simp only [CtxAwareZapCore.Check, h2, if_true]
    simp [CtxAwareZapCore.Enabled, hE, hC]
  have hs := key impl s rfl rfl
  refine ⟨by rw [hs], by rw [hs], by rw [hs], ?_, ?_⟩
  · rw [hs]
    intro e he
    simp only [List.mem_singleton] at he
    subst he
    exact ⟨rfl, rfl⟩
  · intro impl2 s2 hE hC
    rw [key impl2 s2 hE hC, hs]
    exact ⟨rfl, rfl, rfl⟩

/-- Witness of C4: `demoCore` is disabled at level -1. -/
theorem Check_level_disabled_witness :
    ((({ Core := (), latestCtx := some 1, OnLogWrite := some keepFields } :
        CtxAwareZapCore Unit Nat Unit).Check demoCore (demoEntry (-1)) none ()).calls
      = [Event.enabled () (demoEntry (-1)).Level]) :=
  (Check_level_disabled demoCore
    { Core := (), latestCtx := some 1, OnLogWrite := some keepFields }
    (demoEntry (-1)) none () (by decide)).2.1

/-- C5: when the level is enabled and the wrapped core's `Check(ent, nil)` returns nil,
`s.Check(ent, ce)` returns `ce` unchanged (`s` is not added as a writer); its collaborator
calls are the gate and the probe only, so neither the callback nor the wrapped core's
`Write` runs. -/
theorem Check_no_interest {σ Γ ω : Type} (impl : Wrapped σ Γ ω)
    (s : CtxAwareZapCore σ Γ ω) (ent : Entry) (ce : Option (CheckedEntry σ Γ ω)) (w : ω)
    (hen : (s.Enabled impl ent.Level w).value = true)
    (hno : (impl.Check s.Core ent none (s.Enabled impl ent.Level w).world).1 = none) :
    (s.Check impl ent ce w).value = ce
    ∧ (s.Check impl ent ce w).calls
        = [Event.enabled s.Core ent.Level, Event.coreCheck s.Core ent]
    ∧ (∀ e ∈ (s.Check impl ent ce w).calls, e.isCallback = false ∧ e.isCoreWrite = false)
    ∧ callbackArgs (s.Check impl ent ce w).calls = []
    ∧ writeArgs (s.Check impl ent ce w).calls = [] := by
  have hs : s.Check impl ent ce w =
      { value := ce,
        world := (impl.Check s.Core ent none (s.Enabled impl ent.Level w).world).2,
        calls := [Event.enabled s.Core ent.Level, Event.coreCheck s.Core ent] } := by
    simp only [CtxAwareZapCore.Check, hen, hno]
    simp [CtxAwareZapCore.Enabled]
  rw [hs]
  refine ⟨rfl, rfl, ?_, rfl, rfl⟩
  intro e he
  simp only [List.mem_cons, List.mem_singleton, List.not_mem_nil, or_false] at he
  rcases he with rfl | rfl <;> exact ⟨rfl, rfl⟩

/-- Witness of C5: `deafCore` is enabled at level 0 and reports no interest. -/
theorem Check_no_interest_witness :
    (({ Core := (), latestCtx := some 1, OnLogWrite := some keepFields } :
        CtxAwareZapCore Unit Nat Unit).Check deafCore (demoEntry 0) none ()).calls
      = [Event.enabled () (demoEntry 0).Level, Event.coreCheck () (demoEntry 0)] :=
  (Check_no_interest deafCore
    { Core := (), latestCtx := some 1, OnLogWrite := some keepFields }
    (demoEntry 0) none () (by decide) rfl).2.1

/-! ## With -/

theorem lastCarried_mem {Γ : Type} (fields : List (Field Γ)) (c : Γ)
    (h : lastCarried fields = some c) :
    ∃ f ∈ fields, isCarrier f = true ∧ asContext f.Interface = some c := by
  cases hfind : fields.reverse.find? isCarrier with
  | none => simp [lastCarried, hfind] at h
  | some g =>
    refine ⟨g, List.mem_reverse.mp (List.mem_of_find?_eq_some hfind),
      List.find?_some hfind, ?_⟩
    simpa [lastCarried, hfind] using h

theorem With_latestCtx {σ Γ ω : Type} (impl : Wrapped σ Γ ω) (s : CtxAwareZapCore σ Γ ω)
    (fields : List (Field Γ)) (w : ω) :
    (s.With impl fields w).value.latestCtx =
      match lastCarried fields with
      | some c => some c
      | none => s.latestCtx := by
  simp [CtxAwareZapCore.With, ctxFromSelfOrFields_eq]

theorem With_calls {σ Γ ω : Type} (impl : Wrapped σ Γ ω) (s : CtxAwareZapCore σ Γ ω)
    (fields : List (Field Γ)) (w : ω) :
    (s.With impl fields w).calls = [Event.coreWith s.Core (nonCarriers fields)] := by
  simp [CtxAwareZapCore.With, ctxFromSelfOrFields_eq]

/-- C6: `s.With(fields)` returns a core whose callback is that of `s`, whose wrapped core
is the result of `s.Core.With` on the remaining fields (the one collaborator call made),
and whose stored context is the payload of the last decodable carrier of `fields` when
there is one, that of `s` otherwise. When `fields` holds a carrier the stored context is a
context carried by one of them and is the same for every receiver, whatever it stored.
The receiver is a value of the embedding, as the method stores nothing through `s`. -/
theorem With_spec {σ Γ ω : Type} (impl : Wrapped σ Γ ω) (s : CtxAwareZapCore σ Γ ω)
    (fields : List (Field Γ)) (w : ω) :
    (s.With impl fields w).value.OnLogWrite = s.OnLogWrite
    ∧ (s.With impl fields w).value.Core
        = (impl.With s.Core (s.ctxFromSelfOrFields fields).2 w).1
    ∧ (s.With impl fields w).calls
        = [Event.coreWith s.Core (s.ctxFromSelfOrFields fields).2]
    ∧ (s.With impl fields w).value.latestCtx
        = (match lastCarried fields with
            | some c => some c
            | none => s.latestCtx)
    ∧ ((∃ f ∈ fields, isCarrier f = true) →
        ∃ c, (∃ f ∈ fields, isCarrier f = true ∧ asContext f.Interface = some c)
          ∧ ∀ s2 : CtxAwareZapCore σ Γ ω, (s2.With impl fields w).value.latestCtx = some c) := by
  refine ⟨rfl, rfl, rfl, With_latestCtx impl s fields w, ?_⟩
  intro hex
  obtain ⟨c, hc⟩ := Option.isSome_iff_exists.mp (lastCarried_isSome fields hex)
  refine ⟨c, lastCarried_mem fields c hc, ?_⟩
  intro s2
  rw [With_latestCtx, hc]

/-- Witness of C6: a receiver storing context 9 derives with a carrier of context 3 among
ordinary fields; the derived core stores 3. -/
theorem With_spec_witness :
    ∃ c, (∃ f ∈ [strField "a" "x", CtxField (some 3)],
            isCarrier f = true ∧ asContext f.Interface = some c)
      ∧ ∀ s2 : CtxAwareZapCore Unit Nat Unit,
          (s2.With demoCore [strField "a" "x", CtxField (some 3)] ()).value.latestCtx
            = some c :=
  (With_spec demoCore { Core := (), latestCtx := some 9, OnLogWrite := none }
    [strField "a" "x", CtxField (some 3)] ()).2.2.2.2
    ⟨CtxField (some 3), by decide, by decide⟩

theorem withChain_no_carrier {σ Γ ω : Type} (impl : Wrapped σ Γ ω)
    (fss : List (List (Field Γ))) (s : CtxAwareZapCore σ Γ ω) (w : ω)
    (h : ∀ fs ∈ fss, ∀ f ∈ fs, isCarrier f = false) :
    (withChain impl s fss w).1.latestCtx = s.latestCtx
    ∧ (withChain impl s fss w).1.OnLogWrite = s.OnLogWrite := by
  induction fss generalizing s w with
  | nil => exact ⟨rfl, rfl⟩
  | cons fs rest ih =>
    have hrest : ∀ gs ∈ rest, ∀ f ∈ gs, isCarrier f = false :=
      fun gs hgs => h gs (List.mem_cons_of_mem fs hgs)
    have hfs : ∀ f ∈ fs, isCarrier f = false := h fs (List.mem_cons_self fs rest)
    have step := ih (s.With impl fs w).value (s.With impl fs w).world hrest
    have hctx : (s.With impl fs w).value.latestCtx = s.latestCtx := by
      rw [With_latestCtx, lastCarried_eq_none fs hfs]
    simp only [withChain]
    exact ⟨step.1.trans hctx, step.2⟩

/-- C7 as stated fails for the nil context: on a receiver storing context 4,
`s.With([CtxField(nil)])` followed by no further derivation stores 4, not nil. -/
theorem With_chain_nil_ctx_fails :
    (withChain demoCore
        (({ Core := (), latestCtx := some 4, OnLogWrite := none } :
          CtxAwareZapCore Unit Nat Unit).With demoCore [CtxField none] ()).value
        [] ()).1.latestCtx = some 4
    ∧ (some 4 : Option Nat) ≠ none := by
  refine ⟨?_, ?_⟩ <;> decide

/-- C7 (amended): for every core `s`, every non-nil context `c` and every sequence of
field lists none of which holds a decodable carrier, the core
`s.With([CtxField(c)]).With(fs_1)...With(fs_n)` stores `c` and has the callback of `s`. -/
theorem With_chain_keeps_ctx {σ Γ ω : Type} (impl : Wrapped σ Γ ω)
    (s : CtxAwareZapCore σ Γ ω) (c : Γ) (fss : List (List (Field Γ))) (w : ω)
    (h : ∀ fs ∈ fss, ∀ f ∈ fs, isCarrier f = false) :
    (withChain impl (s.With impl [CtxField (some c)] w).value fss
        (s.With impl [CtxField (some c)] w).world).1.latestCtx = some c
    ∧ (withChain impl (s.With impl [CtxField (some c)] w).value fss
        (s.With impl [CtxField (some c)] w).world).1.OnLogWrite = s.OnLogWrite := by
  have hchain := withChain_no_carrier impl fss (s.With impl [CtxField (some c)] w).value
    (s.With impl [CtxField (some c)] w).world h
  have hfirst : (s.With impl [CtxField (some c)] w).value.latestCtx = some c := by
    rw [With_latestCtx]
    have : lastCarried [CtxField (some c)] = some c := by
      simp [lastCarried, isCarrier_CtxField_some, asContext_CtxField]
    rw [this]
  exact ⟨hchain.1.trans hfirst, hchain.2⟩

/-- Witness of C7 (amended): two derivations with ordinary fields after attaching 3. -/
theorem With_chain_keeps_ctx_witness :
    (withChain demoCore
        (({ Core := (), latestCtx := some 9, OnLogWrite := none } :
          CtxAwareZapCore Unit Nat Unit).With demoCore [CtxField (some 3)] ()).value
        [[strField "a" "x"], [strField "context" "y", CtxField none]]
        (({ Core := (), latestCtx := some 9, OnLogWrite := none } :
          CtxAwareZapCore Unit Nat Unit).With demoCore [CtxField (some 3)] ()).world
      ).1.latestCtx = some 3 :=
  (With_chain_keeps_ctx demoCore { Core := (), latestCtx := some 9, OnLogWrite := none } 3
    [[strField "a" "x"], [strField "context" "y", CtxField none]] () (by decide)).1

/-! ## What reaches the wrapped core -/

theorem copySlice_nil_dst {α : Type} (src : List α) : copySlice [] src = [] := by
  simp [copySlice, copyCount]

theorem Write_without_callback {σ Γ ω : Type} (impl : Wrapped σ Γ ω)
    (s : CtxAwareZapCore σ Γ ω) (ent : Entry) (fields : List (Field Γ)) (w : ω)
    (h : s.OnLogWrite = none) :
    s.Write impl ent fields w =
      { value := (impl.Write s.Core ent fields w).1,
        world := (impl.Write s.Core ent fields w).2,
        calls := [Event.coreWrite s.Core ent fields] } := by
  simp [CtxAwareZapCore.Write, h]

theorem Write_without_ctx {σ Γ ω : Type} (impl : Wrapped σ Γ ω)
    (s : CtxAwareZapCore σ Γ ω) (ent : Entry) (fields : List (Field Γ)) (w : ω)
    (cb : OnLogWrite Γ ω) (h : s.OnLogWrite = some cb)
    (hctx : (s.ctxFromSelfOrFields fields).1 = none) :
    s.Write impl ent fields w =
      { value := (impl.Write s.Core ent (nonCarriers fields) w).1,
        world := (impl.Write s.Core ent (nonCarriers fields) w).2,
        calls := [Event.coreWrite s.Core ent (nonCarriers fields)] } := by
  have hsnd : (s.ctxFromSelfOrFields fields).2 = nonCarriers fields := by
    rw [ctxFromSelfOrFields_eq]
  simp only [CtxAwareZapCore.Write, h, hctx, hsnd]

theorem Write_with_ctx {σ Γ ω : Type} (impl : Wrapped σ Γ ω)
    (s : CtxAwareZapCore σ Γ ω) (ent : Entry) (fields : List (Field Γ)) (w : ω)
    (cb : OnLogWrite Γ ω) (h : s.OnLogWrite = some cb) (c : Γ)
    (hctx : (s.ctxFromSelfOrFields fields).1 = some c) :
    s.Write impl ent fields w =
      { value := (impl.Write s.Core ent (cb s.latestCtx ent [] w).1
                    (cb s.latestCtx ent [] w).2).1,
        world := (impl.Write s.Core ent (cb s.latestCtx ent [] w).1
                    (cb s.latestCtx ent [] w).2).2,
        calls := [Event.callback s.latestCtx ent [],
                  Event.coreWrite s.Core ent (cb s.latestCtx ent [] w).1] } := by
  simp only [CtxAwareZapCore.Write, h, hctx, makeSlice, List.replicate_zero,
    copySlice_nil_dst]

/-- C8 as stated fails without a callback: a core whose `OnLogWrite` is nil writes the
fields `[CtxField(3)]`, and the wrapped core's `Write` is passed that carrier. -/
theorem Write_forwards_carrier_without_callback :
    writeArgs
        (({ Core := (), latestCtx := none, OnLogWrite := none } :
            CtxAwareZapCore Unit Nat Unit).Write demoCore (demoEntry 0)
          [CtxField (some 3)] ()).calls
      = [[CtxField (some 3)]]
    ∧ isCarrier (CtxField (some 3) : Field Nat) = true := by
  refine ⟨?_, ?_⟩ <;> decide

/-- C8 (amended): for every core `s` and field list `fields`, the list `s.With(fields)`
passes to the wrapped core's `With` holds no field with key "context", type `ReflectType`
and a context payload; and when `s` has a callback that adds no such field, neither does
the list `s.Write(ent, fields)` passes to the wrapped core's `Write`. -/
theorem carrier_stripped {σ Γ ω : Type} (impl : Wrapped σ Γ ω)
    (s : CtxAwareZapCore σ Γ ω) (ent : Entry) (fields : List (Field Γ)) (w : ω) :
    (∀ fs ∈ withArgs (s.With impl fields w).calls, ∀ f ∈ fs, isCarrier f = false)
    ∧ (∀ cb : OnLogWrite Γ ω, s.OnLogWrite = some cb →
        (∀ (ctx : Option Γ) (e : Entry) (gs : List (Field Γ)) (v : ω),
          (∀ g ∈ gs, isCarrier g = false) → ∀ g ∈ (cb ctx e gs v).1, isCarrier g = false) →
        ∀ fs ∈ writeArgs (s.Write impl ent fields w).calls,
          ∀ f ∈ fs, isCarrier f = false) := by
  constructor
  · intro fs hfs f hf
    rw [With_calls] at hfs
    simp only [withArgs, List.mem_singleton] at hfs
    subst hfs
    exact ((mem_nonCarriers fields f).mp hf).2
  · intro cb hcb hadd fs hfs f hf
    cases hctx : (s.ctxFromSelfOrFields fields).1 with
    | none =>
      rw [Write_without_ctx impl s ent fields w cb hcb hctx] at hfs
      simp only [writeArgs, List.mem_singleton] at hfs
      subst hfs
      exact ((mem_nonCarriers fields f).mp hf).2
    | some c =>
      rw [Write_with_ctx impl s ent fields w cb hcb c hctx] at hfs
      simp only [writeArgs, List.mem_singleton] at hfs
      subst hfs
      exact hadd s.latestCtx ent [] w (fun g hg => absurd hg (List.not_mem_nil g)) f hf

/-- Witness of C8 (amended): a core with the callback `keepFields` and no stored context
writes a carrier between ordinary fields. -/
theorem carrier_stripped_witness :
    ∀ fs ∈ writeArgs
        (({ Core := (), latestCtx := none, OnLogWrite := some keepFields } :
            CtxAwareZapCore Unit Nat Unit).Write demoCore (demoEntry 0)
          [strField "a" "x", CtxField (some 3), strField "b" "y"] ()).calls,
      ∀ f ∈ fs, isCarrier f = false :=
  (carrier_stripped demoCore
    { Core := (), latestCtx := none, OnLogWrite := some keepFields } (demoEntry 0)
    [strField "a" "x", CtxField (some 3), strField "b" "y"] ()).2 keepFields rfl
    (fun _ _ _ _ h => h)

/-- C9: the list `s.With(fields)` hands to the wrapped core's `With` (its only
collaborator call) is `fields` with exactly the decodable carriers deleted: it is the
sublist of the fields that are not carriers, in the original order, and every field with
key "context" but another type or a non-context payload occurs in it as often as in
`fields`. -/
theorem With_forwards_non_carriers {σ Γ ω : Type} [DecidableEq Γ] (impl : Wrapped σ Γ ω)
    (s : CtxAwareZapCore σ Γ ω) (fields : List (Field Γ)) (w : ω) :
    (s.With impl fields w).calls
        = [Event.coreWith s.Core (fields.filter (fun f => !isCarrier f))]
    ∧ withArgs (s.With impl fields w).calls = [fields.filter (fun f => !isCarrier f)]
    ∧ (fields.filter (fun f => !isCarrier f)).Sublist fields
    ∧ (∀ f : Field Γ, f.Key = "context" →
        (f.Typ ≠ FieldType.ReflectType ∨ asContext f.Interface = none) →
        (fields.filter (fun f => !isCarrier f)).count f = fields.count f) := by
  refine ⟨With_calls impl s fields w, ?_, List.filter_sublist fields, ?_⟩
  · rw [With_calls]
    rfl
  · intro f _ hf
    have hnc : isCarrier f = false := by
      rcases hf with ht | hc
      · simp [isCarrier, ht]
      · simp [isCarrier, hc]
    rw [List.count_filter]
    simp [hnc]

/-- Witness of C9: a field with key "context" and a string payload, and one with key
"context", type `ReflectType` and a non-context payload, both survive; the carrier
between them is deleted. -/
theorem With_forwards_non_carriers_witness :
    withArgs
        (({ Core := (), latestCtx := none, OnLogWrite := none } :
            CtxAwareZapCore Unit Nat Unit).With demoCore
          [strField "context" "y", CtxField (some 3),
            { Key := "context", Typ := FieldType.ReflectType, Integer := 0, Str := "",
              Interface := Iface.other "int" }] ()).calls
      = [[strField "context" "y",
          { Key := "context", Typ := FieldType.ReflectType, Integer := 0, Str := "",
            Interface := Iface.other "int" }]] :=
  (With_forwards_non_carriers demoCore { Core := (), latestCtx := none, OnLogWrite := none }
    [strField "context" "y", CtxField (some 3),
      { Key := "context", Typ := FieldType.ReflectType, Integer := 0, Str := "",
        Interface := Iface.other "int" }] ()).2.1

/-- C10: if `s.OnLogWrite` is nil, or if `s` stores no context and `fields` holds no
decodable carrier, then `s.Write(ent, fields)` makes exactly one collaborator call, the
wrapped core's `Write` with `ent` and the original `fields` (the callback is not
invoked), and returns the result of that call. -/
theorem Write_passthrough {σ Γ ω : Type} (impl : Wrapped σ Γ ω)
    (s : CtxAwareZapCore σ Γ ω) (ent : Entry) (fields : List (Field Γ)) (w : ω)
    (h : s.OnLogWrite = none
      ∨ (s.latestCtx = none ∧ ∀ f ∈ fields, isCarrier f = false)) :
    (s.Write impl ent fields w).calls = [Event.coreWrite s.Core ent fields]
    ∧ (s.Write impl ent fields w).value = (impl.Write s.Core ent fields w).1
    ∧ (s.Write impl ent fields w).world = (impl.Write s.Core ent fields w).2 := by
  cases hcb : s.OnLogWrite with
  | none =>
    rw [Write_without_callback impl s ent fields w hcb]
    exact ⟨rfl, rfl, rfl⟩
  | some cb =>
    rcases h with h | ⟨hl, hf⟩
    · rw [hcb] at h
      cases h
    · have hctx : (s.ctxFromSelfOrFields fields).1 = none := by
        rw [ctxFromSelfOrFields_eq, lastCarried_eq_none fields hf]
        exact hl
      rw [Write_without_ctx impl s ent fields w cb hcb hctx, nonCarriers_eq_self fields hf]
      exact ⟨rfl, rfl, rfl⟩

/-- Witness of C10: a core with a callback but no context, writing fields that hold a
field `CtxField(nil)` and an ordinary one. -/
theorem Write_passthrough_witness :
    (({ Core := (), latestCtx := none, OnLogWrite := some keepFields } :
        CtxAwareZapCore Unit Nat Unit).Write demoCore (demoEntry 0)
      [CtxField none, strField "a" "x"] ()).calls
      = [Event.coreWrite () (demoEntry 0) [CtxField none, strField "a" "x"]] :=
  (Write_passthrough demoCore
    { Core := (), latestCtx := none, OnLogWrite := some keepFields } (demoEntry 0)
    [CtxField none, strField "a" "x"] () (Or.inr ⟨rfl, by decide⟩)).1

/-! ## Check: self-registration -/

/-- C18: when the level is enabled and the wrapped core's `Check(ent, nil)` returns a
non-nil probe result, `s.Check(ent, ce)` returns `ce.AddCore(ent, s)`: a chain whose
writers are those of `ce` (none for a nil `ce`) followed by exactly one new writer, `s`
itself, and whose entry is that of `ce` (`ent` for a nil `ce`). The probe result is not
part of the returned chain: any other wrapped core with the same `Enabled` whose probe
also reports interest, whatever writers it registered, gives the same chain. -/
theorem Check_registers_self {σ Γ ω : Type} (impl : Wrapped σ Γ ω)
    (s : CtxAwareZapCore σ Γ ω) (ent : Entry) (ce : Option (CheckedEntry σ Γ ω)) (w : ω)
    (hen : (s.Enabled impl ent.Level w).value = true)
    (probe : CheckedEntry σ Γ ω)
    (hyes : (impl.Check s.Core ent none (s.Enabled impl ent.Level w).world).1 = some probe) :
    (s.Check impl ent ce w).value = some (AddCore ce ent (CoreRef.ctxAware s))
    ∧ (AddCore ce ent (CoreRef.ctxAware s)).cores
        = (match ce with
            | none => []
            | some c => c.cores) ++ [CoreRef.ctxAware s]
    ∧ (AddCore ce ent (CoreRef.ctxAware s)).Entry
        = (match ce with
            | none => ent
            | some c => c.Entry)
    ∧ (s.Check impl ent ce w).calls
        = [Event.enabled s.Core ent.Level, Event.coreCheck s.Core ent]
    ∧ (∀ (impl2 : Wrapped σ Γ ω) (probe2 : CheckedEntry σ Γ ω),
        impl2.Enabled = impl.Enabled →
        (impl2.Check s.Core ent none (s.Enabled impl ent.Level w).world).1 = some probe2 →
        (s.Check impl2 ent ce w).value = (s.Check impl ent ce w).value) := by
  have key : ∀ (impl2 : Wrapped σ Γ ω) (probe2 : CheckedEntry σ Γ ω),
      impl2.Enabled = impl.Enabled →
      (impl2.Check s.Core ent none (s.Enabled impl ent.Level w).world).1 = some probe2 →
      (s.Check impl2 ent ce w).value = some (AddCore ce ent (CoreRef.ctxAware s))
      ∧ (s.Check impl2 ent ce w).calls
          = [Event.enabled s.Core ent.Level, Event.coreCheck s.Core ent] := by
    intro impl2 probe2 hE hP
    have hen2 : (s.Enabled impl2 ent.Level w).value = true := by
      simpa [CtxAwareZapCore.Enabled, hE] using hen
    have hw : (s.Enabled impl2 ent.Level w).world = (s.Enabled impl ent.Level w).world := by
      simp [CtxAwareZapCore.Enabled, hE]
    simp only [CtxAwareZapCore.Check, hen2, hw, hP]
    simp [CtxAwareZapCore.Enabled]
  have hs := key impl probe rfl hyes
  refine ⟨hs.1, ?_, ?_, hs.2, ?_⟩
  · cases ce <;> rfl
  · cases ce <;> rfl
  · intro impl2 probe2 hE hP
    rw [(key impl2 probe2 hE hP).1, hs.1]

/-- Witness of C18: `demoCore` registers itself in its probe result; the chain returned
for a nil `ce` holds the decorator only. -/
theorem Check_registers_self_witness :
    (({ Core := (), latestCtx := some 1, OnLogWrite := some keepFields } :
        CtxAwareZapCore Unit Nat Unit).Check demoCore (demoEntry 0) none ()).value
      = some (AddCore none (demoEntry 0)
          (CoreRef.ctxAware { Core := (), latestCtx := some 1, OnLogWrite := some keepFields })) :=
  (Check_registers_self demoCore
    { Core := (), latestCtx := some 1, OnLogWrite := some keepFields }
    (demoEntry 0) none () (by decide)
    (AddCore none (demoEntry 0) (CoreRef.wrapped ())) rfl).1

/-! ## The field bridge: which context is resolved -/

/-- C19 as stated fails when a carrier holds the stored context: on a receiver storing
context 3, `ctxFromSelfOrFields([CtxField(3)])` returns 3, which is the stored
`latestCtx`, although the field list holds a decodable carrier. -/
theorem ctxFromSelfOrFields_stored_ctx_with_carrier :
    (({ Core := (), latestCtx := some 3, OnLogWrite := none } :
          CtxAwareZapCore Unit Nat Unit).ctxFromSelfOrFields [CtxField (some 3)]).1
      = ({ Core := (), latestCtx := some 3, OnLogWrite := none } :
          CtxAwareZapCore Unit Nat Unit).latestCtx
    ∧ CtxField (some 3) ∈ ([CtxField (some 3)] : List (Field Nat))
    ∧ isCarrier (CtxField (some 3) : Field Nat) = true
    ∧ ¬ (∀ f ∈ ([CtxField (some 3)] : List (Field Nat)), isCarrier f = false) := by
  refine ⟨?_, ?_, ?_, ?_⟩ <;> decide

/-- C19 (amended): the context returned by `s.ctxFromSelfOrFields(fields)` is the payload
of the last field of `fields` with key "context", type `ReflectType` and a context
payload when there is such a field (later matches override earlier ones), and the stored
`latestCtx` of `s` when there is none. It equals the stored `latestCtx` exactly when
`fields` holds no such field or the last such field carries that same context. -/
theorem ctxFromSelfOrFields_resolves_last {σ Γ ω : Type} (s : CtxAwareZapCore σ Γ ω)
    (fields : List (Field Γ)) :
    (s.ctxFromSelfOrFields fields).1
        = (match (fields.reverse.find? isCarrier) with
            | some f => asContext f.Interface
            | none => s.latestCtx)
    ∧ (∀ (before after : List (Field Γ)) (f : Field Γ),
        fields = before ++ f :: after → isCarrier f = true →
        (∀ g ∈ after, isCarrier g = false) →
        (s.ctxFromSelfOrFields fields).1 = asContext f.Interface
        ∧ (asContext f.Interface).isSome = true)
    ∧ ((∀ f ∈ fields, isCarrier f = false) →
        (s.ctxFromSelfOrFields fields).1 = s.latestCtx)
    ∧ ((s.ctxFromSelfOrFields fields).1 = s.latestCtx
        ↔ ((∀ f ∈ fields, isCarrier f = false) ∨ lastCarried fields = s.latestCtx)) := by
  have hfirst : (s.ctxFromSelfOrFields fields).1
      = (match (fields.reverse.find? isCarrier) with
          | some f => asContext f.Interface
          | none => s.latestCtx) := by
    rw [ctxFromSelfOrFields_eq]
    cases hfind : fields.reverse.find? isCarrier with
    | none => simp [lastCarried, hfind]
    | some g =>
      have hg : isCarrier g = true := List.find?_some hfind
      simp only [isCarrier, Bool.and_eq_true] at hg
      obtain ⟨c, hc⟩ := Option.isSome_iff_exists.mp hg.2
      simp [lastCarried, hfind, hc]
  have hnone : (∀ f ∈ fields, isCarrier f = false) →
      (s.ctxFromSelfOrFields fields).1 = s.latestCtx := by
    intro hno
    rw [ctxFromSelfOrFields_eq, lastCarried_eq_none fields hno]
  refine ⟨hfirst, ?_, hnone, ?_⟩
  · intro before after f hsplit hf hafter
    have hfind : fields.reverse.find? isCarrier = some f := by
      rw [hsplit, List.reverse_append, List.reverse_cons, List.append_assoc,
        List.find?_append]
      have hrest : after.reverse.find? isCarrier = none := by
        simp only [List.find?_eq_none, List.mem_reverse]
        intro g hg
        simp [hafter g hg]
      simp [hrest, List.find?_cons, hf]
    constructor
    · rw [hfirst, hfind]
    · simp only [isCarrier, Bool.and_eq_true] at hf
      exact hf.2
  · constructor
    · intro heq
      cases hl : lastCarried fields with
      | none =>
        left
        intro f hf
        by_contra hcar
        have hcar2 : isCarrier f = true := by simpa using hcar
        have hsome := lastCarried_isSome fields ⟨f, hf, hcar2⟩
        simp [hl] at hsome
      | some c =>
        right
        rw [ctxFromSelfOrFields_eq, hl] at heq
        exact heq
    · intro h
      rcases h with hno | hsame
      · exact hnone hno
      · rw [ctxFromSelfOrFields_eq]
        cases hl : lastCarried fields with
        | none => rfl
        | some c =>
          rw [hl] at hsame
          exact hsame

/-- Witness of C19 (amended): of two carriers the later one, of context 2, is resolved. -/
theorem ctxFromSelfOrFields_resolves_last_witness :
    (({ Core := (), latestCtx := some 9, OnLogWrite := none } :
        CtxAwareZapCore Unit Nat Unit).ctxFromSelfOrFields
      [CtxField (some 1), strField "a" "x", CtxField (some 2), CtxField none]).1
      = asContext (CtxField (some 2) : Field Nat).Interface
    ∧ (asContext (CtxField (some 2) : Field Nat).Interface).isSome = true :=
  (ctxFromSelfOrFields_resolves_last
    ({ Core := (), latestCtx := some 9, OnLogWrite := none } : CtxAwareZapCore Unit Nat Unit)
    [CtxField (some 1), strField "a" "x", CtxField (some 2), CtxField none]).2.1
    [CtxField (some 1), strField "a" "x"] [CtxField none] (CtxField (some 2))
    rfl (by decide) (by decide)

/-! ## Write: the enriched path -/

/-- C20: when `s` has a callback and a context is available (stored in `s` or carried by
a field of `fields`), `s.Write(ent, fields)` makes exactly two collaborator calls: the
callback, once, then the wrapped core's `Write`, once, with the same `ent` and exactly
the slice the callback returned, in the world the callback left; and it returns the
error value of that call. -/
theorem Write_enriched_delegation {σ Γ ω : Type} (impl : Wrapped σ Γ ω)
    (s : CtxAwareZapCore σ Γ ω) (ent : Entry) (fields : List (Field Γ)) (w : ω)
    (cb : OnLogWrite Γ ω) (hcb : s.OnLogWrite = some cb)
    (hctx : s.latestCtx ≠ none ∨ ∃ f ∈ fields, isCarrier f = true) :
    ∃ (ctx : Option Γ) (given : List (Field Γ)),
      (s.Write impl ent fields w).calls
          = [Event.callback ctx ent given,
             Event.coreWrite s.Core ent (cb ctx ent given w).1]
      ∧ callbackArgs (s.Write impl ent fields w).calls = [(ctx, ent, given)]
      ∧ writeArgs (s.Write impl ent fields w).calls = [(cb ctx ent given w).1]
      ∧ (s.Write impl ent fields w).value
          = (impl.Write s.Core ent (cb ctx ent given w).1 (cb ctx ent given w).2).1
      ∧ (s.Write impl ent fields w).world
          = (impl.Write s.Core ent (cb ctx ent given w).1 (cb ctx ent given w).2).2 := by
  have hsome : ∃ c, (s.ctxFromSelfOrFields fields).1 = some c := by
    rw [ctxFromSelfOrFields_eq]
    cases hl : lastCarried fields with
    | some c => exact ⟨c, rfl⟩
    | none =>
      rcases hctx with hstored | hfield
      · exact Option.ne_none_iff_exists'.mp hstored
      · have := lastCarried_isSome fields hfield
        simp [hl] at this
  obtain ⟨c, hc⟩ := hsome
  refine ⟨s.latestCtx, [], ?_⟩
  rw [Write_with_ctx impl s ent fields w cb hcb c hc]
  exact ⟨rfl, rfl, rfl, rfl, rfl⟩

/-- Witness of C20: a core storing context 1 with the callback `keepFields`. -/
theorem Write_enriched_delegation_witness :
    ∃ (ctx : Option Nat) (given : List (Field Nat)),
      (({ Core := (), latestCtx := some 1, OnLogWrite := some keepFields } :
          CtxAwareZapCore Unit Nat Unit).Write demoCore (demoEntry 0)
        [strField "a" "x"] ()).calls
          = [Event.callback ctx (demoEntry 0) given,
             Event.coreWrite () (demoEntry 0) (keepFields ctx (demoEntry 0) given ()).1] :=
  let ⟨ctx, given, h⟩ := Write_enriched_delegation demoCore
    { Core := (), latestCtx := some 1, OnLogWrite := some keepFields } (demoEntry 0)
    [strField "a" "x"] () keepFields rfl (Or.inl (by decide))
  ⟨ctx, given, h.1⟩

/-! ## Errors that carry a logger -/

theorem From_some (cfg : Config) (c : Context) :
    ∃ l, From cfg (some c) = Except.ok l := by
  cases hv : c.Value with
  | none => exact ⟨cfg.DefaultLogger, by simp [From, hv]⟩
  | some l =>
    by_cases h : cfg.AddCtxFields = true
    · exact ⟨l.With [CtxField (some c)], by simp [From, hv, h]⟩
    · exact ⟨l, by simp [From, hv, h]⟩

theorem From_no_ctx_fields (cfg : Config) (h : cfg.AddCtxFields = false) (c : Context) :
    From cfg (some c) = Except.ok (match c.Value with
      | none => cfg.DefaultLogger
      | some l => l) := by
  cases hv : c.Value <;> simp [From, hv, h]

theorem EnhanceError_of_From (cfg : Config) (ctx : Option Context) (e : GoErr)
    (fields : List (Field Context)) (l : Logger Context) (h : From cfg ctx = Except.ok l) :
    EnhanceError cfg ctx (some e) fields
      = Except.ok (some (GoErr.enhanced e (l.With fields))) := by
  simp [EnhanceError, h]

theorem NewError_of_From (cfg : Config) (ctx : Option Context) (msg : String)
    (fields : List (Field Context)) (l : Logger Context) (h : From cfg ctx = Except.ok l) :
    NewError cfg ctx msg fields
      = Except.ok (GoErr.enhanced (GoErr.new msg) (l.With fields)) := by
  simp [NewError, h]

theorem asEnhanced_wrapAll (texts : List String) (e : GoErr) (l : Logger Context) :
    asEnhanced (some (wrapAll texts (GoErr.enhanced e l))) = some l := by
  induction texts with
  | nil => simp [wrapAll, asEnhanced]
  | cons t rest ih => simpa [wrapAll, asEnhanced] using ih

theorem ForError_of_enhanced (cfg : Config) (h : cfg.AddCtxFields = false)
    (ctx : Option Context) (err : Option GoErr) (l : Logger Context)
    (hl : asEnhanced err = some l) : ForError cfg ctx err = Except.ok l := by
  simp [ForError, hl, h]

theorem ForError_of_plain (cfg : Config) (ctx : Option Context) (err : Option GoErr)
    (hl : asEnhanced err = none) : ForError cfg ctx err = From cfg ctx := by
  unfold ForError
  simp only [hl]
  cases From cfg ctx <;> rfl

/-- C11 as stated fails for the nil context: `EnhanceError(nil, err)` with a non-nil
`err` calls `From(nil)`, which panics, so no error is returned. -/
theorem EnhanceError_nil_ctx_panics :
    EnhanceError demoConfig none (some (GoErr.new "boom")) [] = Except.error nilDeref
    ∧ ∀ x : Option GoErr,
        EnhanceError demoConfig none (some (GoErr.new "boom")) [] ≠ Except.ok x := by
  refine ⟨rfl, ?_⟩
  intro x h
  have h2 : (Except.error nilDeref : Run (Option GoErr)) = Except.ok x := h
  cases h2

/-- C11 (amended): for every context `ctx`, nil included, and every field list,
`EnhanceError(ctx, nil, fields...)` returns nil; for a non-nil `err` it never returns nil,
and for every non-nil context it returns a non-nil error. -/
theorem EnhanceError_nil_propagation (cfg : Config) (ctx : Option Context)
    (fields : List (Field Context)) :
    EnhanceError cfg ctx none fields = Except.ok none
    ∧ (∀ e : GoErr, EnhanceError cfg ctx (some e) fields ≠ Except.ok none)
    ∧ (∀ (c : Context) (e : GoErr),
        ∃ x : GoErr, EnhanceError cfg (some c) (some e) fields = Except.ok (some x)) := by
  refine ⟨rfl, ?_, ?_⟩
  · intro e h
    unfold EnhanceError at h
    cases hf : From cfg ctx with
    | error p => simp [hf] at h
    | ok l => simp [hf] at h
  · intro c e
    obtain ⟨l, hl⟩ := From_some cfg c
    exact ⟨_, EnhanceError_of_From cfg (some c) e fields l hl⟩

/-- C12: with `AddCtxFields` false, for all contexts `ctx1` and `ctx2` (nil included),
every non-nil error `e`, fields `fs` and chain of `fmt.Errorf` wrappers,
`ForError(ctx2, wrap(EnhanceError(ctx1, e, fs...)))` ends as `From(ctx1).With(fs...)` does,
whatever `ctx2` is: with the same logger, or with the same panic when `ctx1` is nil. For a
non-nil `ctx1` both return. For an error whose unwrap chain holds no enhanced error
`ForError(ctx2, err)` ends as `From(ctx2)` does. -/
theorem ForError_snapshot_isolation (cfg : Config) (hflag : cfg.AddCtxFields = false)
    (ctx1 ctx2 : Option Context) (e : GoErr) (fs : List (Field Context))
    (texts : List String) :
    ((EnhanceError cfg ctx1 (some e) fs).bind
        (fun x => ForError cfg ctx2 (x.map (wrapAll texts)))
      = (From cfg ctx1).map (fun l => l.With fs))
    ∧ (∀ c1 : Context, ∃ (l : Logger Context) (x : GoErr),
        From cfg (some c1) = Except.ok l
        ∧ EnhanceError cfg (some c1) (some e) fs = Except.ok (some x)
        ∧ ForError cfg ctx2 (some (wrapAll texts x)) = Except.ok (l.With fs))
    ∧ (∀ err : Option GoErr, asEnhanced err = none →
        ForError cfg ctx2 err = From cfg ctx2) := by
  refine ⟨?_, ?_, ?_⟩
  · cases hf : From cfg ctx1 with
    | error p => simp [EnhanceError, hf, Except.bind, Except.map]
    | ok l =>
      rw [EnhanceError_of_From cfg ctx1 e fs l hf]
      simp only [Except.bind, Except.map, Option.map_some']
      exact ForError_of_enhanced cfg hflag ctx2 _ _ (asEnhanced_wrapAll texts e _)
  · intro c1
    obtain ⟨l, hl⟩ := From_some cfg c1
    exact ⟨l, _, hl, EnhanceError_of_From cfg (some c1) e fs l hl,
      ForError_of_enhanced cfg hflag ctx2 _ _ (asEnhanced_wrapAll texts e _)⟩
  · intro err herr
    exact ForError_of_plain cfg ctx2 err herr

/-- Witness of C12: an error enhanced under a context whose logger has the field
`user=u`, wrapped twice, and retrieved under a context whose logger has `other=o`. -/
theorem ForError_snapshot_isolation_witness :
    ∃ (l : Logger Context) (x : GoErr),
      From demoConfig (some (Context.withValue (Context.background 0)
          { root := "nop", fields := [ctxStrField "user" "u"] })) = Except.ok l
      ∧ EnhanceError demoConfig (some (Context.withValue (Context.background 0)
          { root := "nop", fields := [ctxStrField "user" "u"] }))
          (some (GoErr.new "boom")) [ctxStrField "k" "v"] = Except.ok (some x)
      ∧ ForError demoConfig (some (Context.withValue (Context.background 1)
          { root := "nop", fields := [ctxStrField "other" "o"] }))
          (some (wrapAll ["outer", "inner"] x)) = Except.ok (l.With [ctxStrField "k" "v"]) :=
  (ForError_snapshot_isolation demoConfig rfl none
    (some (Context.withValue (Context.background 1)
      { root := "nop", fields := [ctxStrField "other" "o"] }))
    (GoErr.new "boom") [ctxStrField "k" "v"] ["outer", "inner"]).2.1
    (Context.withValue (Context.background 0)
      { root := "nop", fields := [ctxStrField "user" "u"] })

/-- C13 (failing input): with the start-up configuration, `ForError(context.TODO(), err)`
for `err = errors.New("something")` returns `DefaultLogger` itself. Its cumulative
fields are empty: they are not those of the base logger followed by `zap.Error(err)`. -/
theorem ForError_drops_error_field :
    ForError demoConfig (some (Context.background 0)) (some (GoErr.new "something"))
      = Except.ok demoConfig.DefaultLogger
    ∧ fieldsOf (ForError demoConfig (some (Context.background 0))
        (some (GoErr.new "something"))) = Except.ok []
    ∧ ([] : List (Field Context))
        ≠ demoConfig.DefaultLogger.fields ++ [zapError (some (GoErr.new "something"))] := by
  refine ⟨?_, ?_, ?_⟩
  · simp [ForError, asEnhanced, From, Context.Value]
  · simp [ForError, asEnhanced, From, Context.Value, fieldsOf, demoConfig]
  · simp

/-- C14 as stated fails: `From(nil)` panics instead of returning `DefaultLogger`, and so
do `NewError(nil, msg)` and `EnhanceError(nil, err)` with a non-nil `err`. -/
theorem From_nil_ctx_panics :
    From demoConfig none = Except.error nilDeref
    ∧ From demoConfig none ≠ Except.ok demoConfig.DefaultLogger
    ∧ NewError demoConfig none "m" [] = Except.error nilDeref
    ∧ EnhanceError demoConfig none (some (GoErr.new "boom")) [] = Except.error nilDeref := by
  refine ⟨rfl, ?_, rfl, rfl⟩
  intro h
  have h2 : (Except.error nilDeref : Run (Logger Context)) = Except.ok demoConfig.DefaultLogger := h
  cases h2

/-- C14 (amended): `From` is total on every non-nil context: it returns a logger, and
`NewError` and `EnhanceError` with a non-nil `err` return an enhanced error capturing
that logger with the fields added. For a non-nil context with no logger attached the
logger is `DefaultLogger`, so `DefaultLogger.With(fields...)` is captured. On the nil
context `From` panics. -/
theorem From_total_on_non_nil (cfg : Config) (c : Context) (msg : String) (e : GoErr)
    (fields : List (Field Context)) :
    (∃ l : Logger Context, From cfg (some c) = Except.ok l
        ∧ NewError cfg (some c) msg fields
            = Except.ok (GoErr.enhanced (GoErr.new msg) (l.With fields))
        ∧ EnhanceError cfg (some c) (some e) fields
            = Except.ok (some (GoErr.enhanced e (l.With fields))))
    ∧ (c.Value = none →
        From cfg (some c) = Except.ok cfg.DefaultLogger
        ∧ NewError cfg (some c) msg fields
            = Except.ok (GoErr.enhanced (GoErr.new msg) (cfg.DefaultLogger.With fields))
        ∧ EnhanceError cfg (some c) (some e) fields
            = Except.ok (some (GoErr.enhanced e (cfg.DefaultLogger.With fields))))
    ∧ From cfg none = Except.error nilDeref := by
  refine ⟨?_, ?_, rfl⟩
  · obtain ⟨l, hl⟩ := From_some cfg c
    exact ⟨l, hl, NewError_of_From cfg _ msg fields l hl,
      EnhanceError_of_From cfg _ e fields l hl⟩
  · intro hv
    have hl : From cfg (some c) = Except.ok cfg.DefaultLogger := by simp [From, hv]
    exact ⟨hl, NewError_of_From cfg _ msg fields _ hl,
      EnhanceError_of_From cfg _ e fields _ hl⟩

/-- Witness of C14 (amended): `context.TODO()` holds no logger. -/
theorem From_total_on_non_nil_witness :
    From demoConfig (some (Context.background 0)) = Except.ok demoConfig.DefaultLogger
    ∧ NewError demoConfig (some (Context.background 0)) "m" [ctxStrField "k" "v"]
        = Except.ok (GoErr.enhanced (GoErr.new "m")
            (demoConfig.DefaultLogger.With [ctxStrField "k" "v"]))
    ∧ EnhanceError demoConfig (some (Context.background 0)) (some (GoErr.new "boom"))
        [ctxStrField "k" "v"]
        = Except.ok (some (GoErr.enhanced (GoErr.new "boom")
            (demoConfig.DefaultLogger.With [ctxStrField "k" "v"]))) :=
  (From_total_on_non_nil demoConfig (Context.background 0) "m" (GoErr.new "boom")
    [ctxStrField "k" "v"]).2.1 rfl

/-- C15 (failing input): `Debug(nil, "m")` logs the message once through `DefaultLogger`
and then, instead of returning, goes on to `From(nil)`, which panics. -/
theorem Debug_nil_ctx_panics :
    Debug demoConfig none "m" []
      = ([{ logger := demoConfig.DefaultLogger, level := DebugLevel, msg := "m",
            fields := [] }],
         Except.error nilDeref) := by
  rfl

theorem WithFields_of_From (cfg : Config) (c : Context) (fields : List (Field Context))
    (l : Logger Context) (h : From cfg (some c) = Except.ok l) :
    WithFields cfg (some c) fields = Except.ok (Context.withValue c (l.With fields)) := by
  simp [WithFields, h, newCtx]

theorem From_withValue (cfg : Config) (h : cfg.AddCtxFields = false) (c : Context)
    (l : Logger Context) : From cfg (some (Context.withValue c l)) = Except.ok l := by
  rw [From_no_ctx_fields cfg h]
  simp [Context.Value]

/-- C16: with `AddCtxFields` false, for every non-nil base context `ctx0`, field lists
`f1`, `f2`, `f3` and non-nil error `e`, all the calls return and, with
`ctx1 = WithFields(ctx0, f1...)` and `ctx2 = WithFields(ctx1, f2...)`, the cumulative
fields of `From(ctx1)` are those of `From(ctx0)` followed by `f1`, those of `From(ctx2)`
are those of `From(ctx0)` followed by `f1` then `f2`, and those of
`ForError(ctx0, fmt.Errorf("%w", EnhanceError(ctx2, e, f3...)))` are those of `From(ctx0)`
followed by `f1`, `f2`, then `f3`. For the nil base context `From(ctx0)` and
`WithFields(ctx0, f1...)` panic alike. -/
theorem end_to_end_field_order (cfg : Config) (hflag : cfg.AddCtxFields = false)
    (c0 : Context) (f1 f2 f3 : List (Field Context)) (e : GoErr) (text : String) :
    (∃ (l0 : Logger Context) (c1 c2 : Context) (x : GoErr),
        From cfg (some c0) = Except.ok l0
        ∧ WithFields cfg (some c0) f1 = Except.ok c1
        ∧ fieldsOf (From cfg (some c1)) = Except.ok (l0.fields ++ f1)
        ∧ WithFields cfg (some c1) f2 = Except.ok c2
        ∧ fieldsOf (From cfg (some c2)) = Except.ok (l0.fields ++ f1 ++ f2)
        ∧ EnhanceError cfg (some c2) (some e) f3 = Except.ok (some x)
        ∧ fieldsOf (ForError cfg (some c0) (some (Errorf text (some x))))
            = Except.ok (l0.fields ++ f1 ++ f2 ++ f3))
    ∧ (From cfg none = Except.error nilDeref
        ∧ WithFields cfg none f1 = Except.error nilDeref) := by
  refine ⟨?_, rfl, rfl⟩
  obtain ⟨l0, hl0⟩ := From_some cfg c0
  have h1 := From_withValue cfg hflag c0 (l0.With f1)
  have h2 := From_withValue cfg hflag (Context.withValue c0 (l0.With f1))
    ((l0.With f1).With f2)
  refine ⟨l0, Context.withValue c0 (l0.With f1),
    Context.withValue (Context.withValue c0 (l0.With f1)) ((l0.With f1).With f2),
    GoErr.enhanced e (((l0.With f1).With f2).With f3),
    hl0, WithFields_of_From cfg c0 f1 l0 hl0, ?_, WithFields_of_From cfg _ f2 _ h1, ?_,
    EnhanceError_of_From cfg _ e f3 _ h2, ?_⟩
  · rw [h1]
    rfl
  · rw [h2]
    rfl
  · have hfound : asEnhanced (some (Errorf text
        (some (GoErr.enhanced e (((l0.With f1).With f2).With f3)))))
        = some (((l0.With f1).With f2).With f3) := by
      simp [Errorf, asEnhanced]
    rw [ForError_of_enhanced cfg hflag _ _ _ hfound]
    rfl

/-- Witness of C16: the example of the package: `username`, then `depth`, then the
field added where the error is enhanced. -/
theorem end_to_end_field_order_witness :
    ∃ (l0 : Logger Context) (c1 c2 : Context) (x : GoErr),
      From demoConfig (some (Context.background 0)) = Except.ok l0
      ∧ WithFields demoConfig (some (Context.background 0)) [ctxStrField "username" "random"]
          = Except.ok c1
      ∧ fieldsOf (From demoConfig (some c1))
          = Except.ok (l0.fields ++ [ctxStrField "username" "random"])
      ∧ WithFields demoConfig (some c1) [ctxStrField "depth" "2"] = Except.ok c2
      ∧ fieldsOf (From demoConfig (some c2))
          = Except.ok (l0.fields ++ [ctxStrField "username" "random"]
              ++ [ctxStrField "depth" "2"])
      ∧ EnhanceError demoConfig (some c2) (some (GoErr.new "something"))
          [ctxStrField "of test" "1s"] = Except.ok (some x)
      ∧ fieldsOf (ForError demoConfig (some (Context.background 0))
          (some (Errorf "wrapped with errorf: something" (some x))))
          = Except.ok (l0.fields ++ [ctxStrField "username" "random"]
              ++ [ctxStrField "depth" "2"] ++ [ctxStrField "of test" "1s"]) :=
  (end_to_end_field_order demoConfig rfl (Context.background 0)
    [ctxStrField "username" "random"] [ctxStrField "depth" "2"]
    [ctxStrField "of test" "1s"] (GoErr.new "something")
    "wrapped with errorf: something").1

/-- C17: for every context `ctx`, non-nil error `e`, fields `fs` and message `msg`, every
error returned by `EnhanceError(ctx, e, fs...)` is non-nil, its `Unwrap` is exactly `e`
and its `Error()` is `e.Error()`, so `e` is in its unwrap chain, right after the wrapper;
every error returned by `NewError(ctx, msg, fs...)` has `Error()` equal to `msg`; and
for every non-nil context both calls return such an error. -/
theorem enhanced_cause_recovery (cfg : Config) (ctx : Option Context) (e : GoErr)
    (fs : List (Field Context)) (msg : String) :
    (∀ r : Option GoErr, EnhanceError cfg ctx (some e) fs = Except.ok r →
        ∃ x : GoErr, r = some x ∧ x.Unwrap = some e ∧ x.Error = e.Error
          ∧ x.chain = x :: e.chain ∧ e ∈ x.chain)
    ∧ (∀ x : GoErr, NewError cfg ctx msg fs = Except.ok x →
        x.Error = msg ∧ x.Unwrap = some (GoErr.new msg))
    ∧ (∀ c : Context,
        (∃ x : GoErr, EnhanceError cfg (some c) (some e) fs = Except.ok (some x)
          ∧ x.Unwrap = some e ∧ x.Error = e.Error ∧ e ∈ x.chain)
        ∧ (∃ x : GoErr, NewError cfg (some c) msg fs = Except.ok x ∧ x.Error = msg)) := by
  have hself : ∀ g : GoErr, g ∈ g.chain := by
    intro g
    cases g <;> simp [GoErr.chain]
  have henh : ∀ l : Logger Context,
      (GoErr.enhanced e l).Unwrap = some e ∧ (GoErr.enhanced e l).Error = e.Error
      ∧ (GoErr.enhanced e l).chain = GoErr.enhanced e l :: e.chain
      ∧ e ∈ (GoErr.enhanced e l).chain := by
    intro l
    refine ⟨rfl, ?_, ?_, ?_⟩
    · simp [GoErr.Error]
    · simp [GoErr.chain]
    · simp [GoErr.chain, hself e]
  refine ⟨?_, ?_, ?_⟩
  · intro r hr
    cases hf : From cfg ctx with
    | error p => simp [EnhanceError, hf] at hr
    | ok l =>
      rw [EnhanceError_of_From cfg ctx e fs l hf] at hr
      cases hr
      exact ⟨_, rfl, henh _⟩
  · intro x hx
    cases hf : From cfg ctx with
    | error p => simp [NewError, hf] at hx
    | ok l =>
      rw [NewError_of_From cfg ctx msg fs l hf] at hx
      cases hx
      exact ⟨by simp [GoErr.Error], rfl⟩
  · intro c
    obtain ⟨l, hl⟩ := From_some cfg c
    refine ⟨⟨_, EnhanceError_of_From cfg _ e fs l hl, (henh _).1, (henh _).2.1,
      (henh _).2.2.2⟩, ⟨_, NewError_of_From cfg _ msg fs l hl, ?_⟩⟩
    simp [GoErr.Error]

/-- Witness of C17: the error enhanced in the example of the package unwraps to its
cause. -/
theorem enhanced_cause_recovery_witness :
    ∃ x : GoErr, (some (GoErr.enhanced (GoErr.new "something")
          (demoConfig.DefaultLogger.With [ctxStrField "of test" "1s"])) : Option GoErr) = some x
      ∧ x.Unwrap = some (GoErr.new "something")
      ∧ x.Error = (GoErr.new "something").Error
      ∧ x.chain = x :: (GoErr.new "something").chain
      ∧ GoErr.new "something" ∈ x.chain :=
  (enhanced_cause_recovery demoConfig (some (Context.background 0)) (GoErr.new "something")
    [ctxStrField "of test" "1s"] "m").1 _ rfl

end Logctx
